import Mathlib

/-!
Shallow embedding of the deck-list parser and card-variant resolver from
`plugins/mtg/parser.go` of the tts-deckconverter repository, together with
theorems settling the specification claims about it.

Strings are handled through `List Char` where recursion is needed; machine
integers that can only hold digit-parsed counts are modelled as `Nat`
(`strconv.Atoi` overflow on counts of 19+ digits is not modelled).
Go runtime panics (nil-pointer dereference, index out of range) are modelled
by an `Option` result, `none` standing for the panic.
-/

namespace MtgParser

/-! ## String helpers mirroring the Go standard library -/

/-- Character test for Go `strings.TrimSpace` (ASCII whitespace; the exotic
Unicode space code points are not modelled, they cannot occur in the inputs
considered here). -/
def isGoSpace (c : Char) : Bool :=
  c = ' ' || c = '\t' || c = '\n' || c = '\x0b' || c = '\x0c' || c = '\r'

/-- `strings.TrimSpace`. -/
def trimSpace (s : String) : String :=
  String.mk (((s.toList.dropWhile isGoSpace).reverse.dropWhile isGoSpace).reverse)

/-- First-occurrence replacement of `"///"` by `"//"`, as performed by
`strings.Replace(name, "///", "//", 1)` in `parseDeckLine`. -/
def replaceTripleSlash : List Char → List Char
  | '/' :: '/' :: '/' :: rest => '/' :: '/' :: rest
  | c :: rest => c :: replaceTripleSlash rest
  | [] => []

/-- `strconv.Atoi` restricted to the strings the `Count` capture group can
produce (non-empty digit strings). -/
def parseCount (s : String) : Nat :=
  s.toList.foldl (fun acc c => acc * 10 + (c.toNat - '0'.toNat)) 0

/-- Split on newline characters; never returns `[]`. -/
def splitNL : List Char → List (List Char)
  | [] => [[]]
  | '\n' :: rest => [] :: splitNL rest
  | c :: rest =>
    match splitNL rest with
    | h :: t => (c :: h) :: t
    | [] => [[c]]

/-- `dropCR` of `bufio.ScanLines`: strip one trailing carriage return. -/
def dropCR (l : List Char) : List Char :=
  match l.reverse with
  | '\r' :: rest => rest.reverse
  | _ => l

/-- The sequence of lines produced by `bufio.Scanner` with `ScanLines` on the
given input: split on `'\n'`, do not emit a final empty token when the input
ends with a newline (or is empty), and strip a trailing `'\r'` from each
line. -/
def splitLines (s : String) : List String :=
  let parts := splitNL s.toList
  let parts :=
    match parts.getLast? with
    | some [] => parts.dropLast
    | _ => parts
  parts.map (fun l => String.mk (dropCR l))

/-- Boolean list prefix test (Go `strings.HasPrefix` on the char lists). -/
def isPrefixOfL : List Char → List Char → Bool
  | [], _ => true
  | _ :: _, [] => false
  | a :: as, b :: bs => a = b && isPrefixOfL as bs

/-- `strings.HasPrefix`. -/
def hasPrefix (s pre : String) : Bool :=
  isPrefixOfL pre.toList s.toList

/-- Split on `'/'` (Go `strings.Split(uri, "/")`); never returns `[]`. -/
def splitSlash : List Char → List (List Char)
  | [] => [[]]
  | '/' :: rest => [] :: splitSlash rest
  | c :: rest =>
    match splitSlash rest with
    | h :: t => (c :: h) :: t
    | [] => [[c]]

/-! ## Regular-expression engine

The three patterns in `cardLineRegexps` are fully anchored (`^...$`) and every
repetition operator in them applies to a single-character class, so Go's
leftmost-first (Perl-style greedy, backtracking) submatch semantics is
implemented exactly by a CPS matcher that tries longer repetitions first. -/

/-- The named capture groups occurring in `cardLineRegexps`. -/
inductive GName where
  | gcount
  | gname
  | gset
  | gsideboard
  | gnumber
  | gcomment
deriving DecidableEq

/-- Submatch result: one slot per named group, `""` when the group did not
participate in the match (this is exactly what `FindStringSubmatch` yields
and what `parseDeckLine`'s `len(matches[idx]) > 0` tests observe; a group
index that is absent from a regex also reads as `""`, equivalent to the Go
code's `idx != -1 &&` guards). -/
structure Caps where
  count : String
  name : String
  cset : String
  sideboard : String
  numberInSet : String
  comment : String
deriving DecidableEq

def emptyCaps : Caps := ⟨"", "", "", "", "", ""⟩

def updateCaps (c : Caps) (g : GName) (v : String) : Caps :=
  match g with
  | .gcount => {c with count := v}
  | .gname => {c with name := v}
  | .gset => {c with cset := v}
  | .gsideboard => {c with sideboard := v}
  | .gnumber => {c with numberInSet := v}
  | .gcomment => {c with comment := v}

/-- Regex abstract syntax: literals, single-character classes, greedy
`*`/`+` over a character class, greedy `?`, concatenation and named capture
groups. -/
inductive RE where
  | eps
  | lit : List Char → RE
  | cls : (Char → Bool) → RE
  | star : (Char → Bool) → RE
  | plus : (Char → Bool) → RE
  | opt : RE → RE
  | cat : RE → RE → RE
  | grp : GName → RE → RE

/-- Length of the maximal prefix of characters satisfying `p`. -/
def countWhile (p : Char → Bool) : List Char → Nat
  | [] => 0
  | c :: rest => if p c then countWhile p rest + 1 else 0

/-- Try repetition lengths `n, n-1, ..., 0` (greedy `*`). -/
def tryFromZero (f : Nat → Option Caps) : Nat → Option Caps
  | 0 => f 0
  | n + 1 =>
    match f (n + 1) with
    | some r => some r
    | none => tryFromZero f n

/-- Try repetition lengths `n, n-1, ..., 1` (greedy `+`). -/
def tryFromOne (f : Nat → Option Caps) : Nat → Option Caps
  | 0 => none
  | n + 1 =>
    match f (n + 1) with
    | some r => some r
    | none => tryFromOne f n

/-- CPS backtracking matcher implementing leftmost-first greedy submatch
semantics. `k` receives the remaining input and the captures accumulated on
the current path. -/
def reMatch : RE → List Char → Caps → (List Char → Caps → Option Caps) → Option Caps
  | .eps, s, cp, k => k s cp
  | .lit l, s, cp, k => if isPrefixOfL l s then k (s.drop l.length) cp else none
  | .cls p, s, cp, k =>
    match s with
    | [] => none
    | a :: rest => if p a then k rest cp else none
  | .star p, s, cp, k => tryFromZero (fun n => k (s.drop n) cp) (countWhile p s)
  | .plus p, s, cp, k => tryFromOne (fun n => k (s.drop n) cp) (countWhile p s)
  | .opt r, s, cp, k =>
    match reMatch r s cp k with
    | some res => some res
    | none => k s cp
  | .cat a b, s, cp, k => reMatch a s cp (fun s2 cp2 => reMatch b s2 cp2 k)
  | .grp g r, s, cp, k =>
    reMatch r s cp
      (fun s2 cp2 => k s2 (updateCaps cp2 g (String.mk (s.take (s.length - s2.length)))))

/-- Anchored whole-string match (all three Go patterns are `^...$`-anchored,
so `FindStringSubmatch` succeeds exactly when the whole line matches). -/
def matchRE (r : RE) (s : List Char) : Option Caps :=
  reMatch r s emptyCaps (fun rest cp => if rest.isEmpty then some cp else none)

/-- RE2 `\s` = `[\t\n\f\r ]`. -/
def reSpace (c : Char) : Bool :=
  c = '\t' || c = '\n' || c = '\x0c' || c = '\r' || c = ' '

/-- RE2 `\d`. -/
def reDigit (c : Char) : Bool := '0' ≤ c && c ≤ '9'

/-- RE2 `.` (any character but newline). -/
def reDot (c : Char) : Bool := !(c = '\n')

/-- `[A-Z0-9_]`. -/
def reSetChar (c : Char) : Bool :=
  ('A' ≤ c && c ≤ 'Z') || reDigit c || c = '_'

/-- `[^#]`. -/
def reNotHash (c : Char) : Bool := !(c = '#')

/-- `[ab]`. -/
def reAB (c : Char) : Bool := c = 'a' || c = 'b'

def reSeq (l : List RE) : RE := l.foldr RE.cat RE.eps

/-- `^\s*(?P<Count>\d+)\s+(?P<Name>.+)\s+\((?P<Set>[A-Z0-9_]+)\)(\s+(?P<NumberInSet>[\d]+[ab]*))?$`
(Magic Arena format). -/
def arenaRegex : RE :=
  reSeq [RE.star reSpace, RE.grp .gcount (RE.plus reDigit), RE.plus reSpace,
    RE.grp .gname (RE.plus reDot), RE.plus reSpace, RE.lit ['('],
    RE.grp .gset (RE.plus reSetChar), RE.lit [')'],
    RE.opt (reSeq [RE.plus reSpace,
      RE.grp .gnumber (RE.cat (RE.plus reDigit) (RE.star reAB))])]

/-- `^(?P<Sideboard>SB:)?\s*(?P<Count>\d+)\s+\[(?P<Set>[A-Z0-9_]+)\]\s+(?P<Name>.+)$`
(Magic Workstation format). -/
def workstationRegex : RE :=
  reSeq [RE.opt (RE.grp .gsideboard (RE.lit ['S', 'B', ':'])), RE.star reSpace,
    RE.grp .gcount (RE.plus reDigit), RE.plus reSpace, RE.lit ['['],
    RE.grp .gset (RE.plus reSetChar), RE.lit [']'], RE.plus reSpace,
    RE.grp .gname (RE.plus reDot)]

/-- `^(?P<Sideboard>SB:)?\s*(?P<Count>\d+)x?\s+(?P<Name>[^#]+)(\s+#(?P<Comment>.*))?$`
(standard / MTGO format). -/
def standardRegex : RE :=
  reSeq [RE.opt (RE.grp .gsideboard (RE.lit ['S', 'B', ':'])), RE.star reSpace,
    RE.grp .gcount (RE.plus reDigit), RE.opt (RE.cls (fun c => c = 'x')),
    RE.plus reSpace, RE.grp .gname (RE.plus reNotHash),
    RE.opt (reSeq [RE.plus reSpace, RE.lit ['#'], RE.grp .gcomment (RE.star reDot)])]

/-- `cardLineRegexps`, in the fixed priority order of the source. -/
def cardLineRegexps : List RE := [arenaRegex, workstationRegex, standardRegex]

/-- The first pattern of `cardLineRegexps` that matches the line wins
(the loop in `parseDeckLine`). -/
def firstMatch (s : List Char) : Option Caps :=
  cardLineRegexps.foldl
    (fun acc r =>
      match acc with
      | some c => some c
      | none => matchRE r s)
    none

/-! ## Deck data model (`DeckType`, `CardInfo`, `CardNames`) -/

/-- `DeckType`: the type of a parsed deck. -/
inductive DeckType where
  | Main
  | Sideboard
  | Maybeboard
deriving DecidableEq

/-- `CardInfo`: the name of a card and its set (`Set *string`, `none` for a
nil pointer). -/
structure CardInfo where
  name : String
  cset : Option String
deriving DecidableEq

/-- `CardNames`: the card names and their count. The Go `Counts` map is
modelled as an association list with at most one entry per key; the merge
loops below are order-insensitive on it, so Go's random map iteration order
is observationally irrelevant. -/
structure CardNames where
  names : List CardInfo
  counts : List (String × Nat)
deriving DecidableEq

/-- `NewCardNames`. -/
def NewCardNames : CardNames := ⟨[], []⟩

/-- Association-list lookup (Go `c.Counts[name]` comma-ok form). -/
def lookupCount : List (String × Nat) → String → Option Nat
  | [], _ => none
  | (k, v) :: rest, n => if k = n then some v else lookupCount rest n

/-- Association-list read with Go's zero-value default. -/
def lookupCountD (l : List (String × Nat)) (n : String) : Nat :=
  (lookupCount l n).getD 0

/-- Map write `m[k] = v` (update in place, append when absent). -/
def setCount : List (String × Nat) → String → Nat → List (String × Nat)
  | [], n, v => [(n, v)]
  | (k, w) :: rest, n, v =>
    if k = n then (k, v) :: rest else (k, w) :: setCount rest n v

/-- `InsertCount`: insert several new cards in a `CardNames` struct. -/
def CardNames.InsertCount (c : CardNames) (name : String) (cset : Option String)
    (count : Nat) : CardNames :=
  match lookupCount c.counts name with
  | none => ⟨c.names ++ [⟨name, cset⟩], c.counts ++ [(name, count)]⟩
  | some old => ⟨c.names, setCount c.counts name (old + count)⟩

/-- One step of the count-merging loop of both reconciliation merges:
`if originalCount, found := main.Counts[name]; found { main.Counts[name] =
originalCount + count } else { main.Counts[name] = count }`. -/
def bumpCount (acc : List (String × Nat)) (p : String × Nat) : List (String × Nat) :=
  match lookupCount acc p.1 with
  | some originalCount => setCount acc p.1 (originalCount + p.2)
  | none => setCount acc p.1 p.2

/-- The sideboard-into-main merge performed (twice, with identical code) in
`parseDeckLine` and `parseDeckFile`:
`main.Names = append(main.Names, side.Names...)` followed by the loop adding
each of `side.Counts` into `main.Counts` (the Go map iteration order is
random, but each key of `side.Counts` is touched exactly once, so any
order — here: list order — produces the same map). -/
def mergeCardNames (main side : CardNames) : CardNames :=
  ⟨main.names ++ side.names, side.counts.foldl bumpCount main.counts⟩

/-! ## Line-by-line parsing state and `parseDeckLine` -/

/-- The six values threaded through `parseDeckLine` / `parseDeckFile`. -/
structure PState where
  main : Option CardNames
  side : Option CardNames
  maybe : Option CardNames
  step : DeckType
  sbLineFound : Bool
  emptyLineCount : Nat
deriving DecidableEq

/-- The insertion tail of `parseDeckLine` once a regex has matched: extract
the set (ignoring the `"000"` placeholder), the count and the trimmed,
slash-normalized name, and insert into the collection of the current step,
creating it lazily. -/
def insertMatched (caps : Caps) (st : PState) : PState :=
  let cset : Option String :=
    if 0 < caps.cset.length && !(caps.cset = "000") then some caps.cset else none
  let count := parseCount caps.count
  let name := String.mk (replaceTripleSlash (trimSpace caps.name).toList)
  match st.step with
  | .Main => {st with main := some ((st.main.getD NewCardNames).InsertCount name cset count)}
  | .Sideboard => {st with side := some ((st.side.getD NewCardNames).InsertCount name cset count)}
  | .Maybeboard => {st with maybe := some ((st.maybe.getD NewCardNames).InsertCount name cset count)}

/-- `parseDeckLine`. `none` models the Go nil-pointer dereference that the
source hits when the first `SB:`-prefixed line arrives while the provisional
sideboard is non-empty but no main-deck card was ever inserted
(`main.Names = append(main.Names, ...)` on a nil `main`).

The Go loop's fallback `continue`s (a regex lacking the `Count`/`Name` group,
or `strconv.Atoi` failing) are unreachable here: all three regexes carry both
groups, and `Atoi` on a `\d+` capture only fails on overflow, which the `Nat`
model does not reproduce. -/
def parseDeckLine (line : String) (st : PState) : Option PState :=
  match firstMatch line.toList with
  | none => some st
  | some caps =>
    if 0 < caps.sideboard.length && !st.sbLineFound then
      let st := {st with step := DeckType.Sideboard}
      match st.side with
      | some s =>
        if 0 < s.names.length then
          match st.main with
          | none => none
          | some m =>
            some (insertMatched caps
              {st with main := some (mergeCardNames m s), side := none, sbLineFound := true})
        else some (insertMatched caps {st with sbLineFound := true})
      | none => some (insertMatched caps {st with sbLineFound := true})
    else some (insertMatched caps st)

/-! ## `parseDeckFile` -/

/-- The line loop of `parseDeckFile`: empty-line zone heuristics, the
`Sideboard` / `Maybeboard` header lines, `//` comments, and card lines. -/
def parseLines : List String → PState → Option PState
  | [], st => some st
  | line :: rest, st =>
    if line.length = 0 then
      let st :=
        match st.main with
        | some m =>
          if 0 < m.names.length then
            {st with
              step := if st.step = DeckType.Main then DeckType.Sideboard else st.step,
              emptyLineCount := st.emptyLineCount + 1}
          else st
        | none => st
      parseLines rest st
    else if hasPrefix line "Sideboard" then
      parseLines rest
        {st with step := if st.step = DeckType.Main then DeckType.Sideboard else st.step}
    else if hasPrefix line "Maybeboard" then
      parseLines rest {st with step := DeckType.Maybeboard}
    else if hasPrefix line "//" then
      parseLines rest st
    else
      match parseDeckLine line st with
      | none => none
      | some st2 => parseLines rest st2

/-- `parseDeckFile`: run the line loop and apply the end-of-input
reconciliation (merge the provisional sideboard into main when no `SB:`
marker was seen and more than one blank-line transition occurred). The
scanner cannot report an I/O error on an in-memory string, so the error
return of the Go function is always nil here; `none` models a runtime
panic. -/
def parseDeckFile (input : String) :
    Option (Option CardNames × Option CardNames × Option CardNames) :=
  match parseLines (splitLines input) ⟨none, none, none, DeckType.Main, false, 0⟩ with
  | none => none
  | some st =>
    match st.side with
    | some s =>
      if !st.sbLineFound && 1 < st.emptyLineCount then
        match st.main with
        | none => none
        | some m => some (some (mergeCardNames m s), none, st.maybe)
      else some (st.main, st.side, st.maybe)
    | none => some (st.main, st.side, st.maybe)

/-! ## Card metadata, lookup client and options (`scryfall` interface)

The Scryfall client is an external collaborator; it is modelled as a record
of lookup functions so that claims quantifying over "every lookup behaviour"
quantify over this record. -/

/-- `scryfall.ImageURIs` (the four quality tiers used by `getImageURL`). -/
structure ImageURIs where
  small : String
  normal : String
  large : String
  png : String
deriving DecidableEq

/-- A card face (`scryfall.CardFace`): name, its own image URIs (a value, not
a pointer, in the Go client) and its text. -/
structure CardFace where
  name : String
  imageURIs : ImageURIs
  oracleText : String
deriving DecidableEq

/-- An entry of `card.AllParts` (`scryfall.RelatedCard`). -/
structure RelatedCard where
  component : String
  uri : String
deriving DecidableEq

/-- The fields of `scryfall.Card` read by the resolver. `imageURIs` is a
pointer in Go (`none` = nil). `layout` is a string tag
(`"meld"`, `"flip"`, `"split"`, `"adventure"`, `"transform"`, `"normal"`,
...). -/
structure SCard where
  id : String
  name : String
  layout : String
  imageURIs : Option ImageURIs
  highresImage : Bool
  oversized : Bool
  allParts : List RelatedCard
  cardFaces : List CardFace
  oracleText : String
deriving DecidableEq

/-- The lookup collaborator: `GetCardByName` (name, optional set; the `exact`
flag is always `false` at the call site and is omitted), `GetCard` (by ID,
used for meld results) and `GetRulings`. Rulings are opaque here. -/
structure Client where
  getCardByName : String → Option String → Except String SCard
  getCard : String → Except String SCard
  getRulings : String → Except String (List String)

/-- The four image quality tiers. -/
inductive Quality where
  | small
  | normal
  | large
  | png
deriving DecidableEq

/-- Modelled from the spec: the options mapping after
`MagicPlugin.AvailableOptions().ValidateNormalize` (that code is not under
`src/`): recognized keys `quality` (default `normal`) and `show_rulings`
(default `false`), already validated and defaulted. -/
structure Options where
  quality : Quality
  showRulings : Bool
deriving DecidableEq

/-- `getImageURL`: `small`/`normal` map directly; `large`/`png` downgrade to
`normal` (with a log warning, not an error) when the high-resolution flag is
unset. -/
def getImageURL (uris : ImageURIs) (highResAvailable : Bool) (imageQuality : Quality) :
    String :=
  match imageQuality with
  | .small => uris.small
  | .normal => uris.normal
  | .large => if highResAvailable then uris.large else uris.normal
  | .png => if highResAvailable then uris.png else uris.normal

/-- Modelled from the spec: `buildCardDescription` lives in another file of
the `mtg` package, absent from `src/`; per the spec the description is built
from the full card text for standard layout. Its exact text never matters to
the claims below. -/
def buildCardDescription (card : SCard) (_rulings : List String) : String :=
  card.oracleText

/-- Modelled from the spec: `buildCardFaceDescription` (absent from `src/`),
the per-face description text. -/
def buildCardFaceDescription (face : CardFace) (_rulings : List String) : String :=
  face.oracleText

/-- Modelled from the spec: `buildCardFacesDescription` (absent from `src/`),
a concatenation of per-face text for flip/split/adventure layouts. -/
def buildCardFacesDescription (faces : List CardFace) (_rulings : List String) : String :=
  String.intercalate "\n" (faces.map (fun f => f.oracleText))

/-! ## Resolved cards and decks (`plugins.CardInfo`, `plugins.Deck`) -/

/-- `plugins.CardInfo` (a resolved card): name, description, image URL,
count, oversized flag and the optional alternative state (back face or meld
result). -/
inductive PCard where
  | mk : String → String → String → Nat → Bool → Option PCard → PCard

/-- Name of a resolved card. -/
def PCard.pname : PCard → String
  | .mk n _ _ _ _ _ => n

def defaultBackURL : String :=
  "http://cloud-3.steamusercontent.com/ugc/998016607072060763/7AFEF2CE9E7A7DB735C93CF33CC4C378CBF4B20D/"

/-- `plugins.Deck` (the fields the resolver sets; `CardSize` is a constant
and is omitted). -/
structure Deck where
  name : String
  backURL : String
  cards : List PCard

/-! ## `cardNamesToDeck`: the per-card loop -/

/-- Outcome of one iteration of the loop in `cardNamesToDeck`:
append a resolved card, `continue` (skip), `return deck, err` (abort the
batch) or a runtime panic. -/
inductive StepRes where
  | add : PCard → StepRes
  | skip : StepRes
  | abort : String → StepRes
  | crash : StepRes

/-- One iteration of the `for _, cardInfo := range cards.Names` loop of
`cardNamesToDeck`: primary lookup (failure aborts the batch), optional
rulings lookup (failure aborts the batch), then the layout-dependent
construction. Meld cards with no parts, no meld-result link, or a failing
secondary lookup are skipped; a single-faced card without images aborts;
`crash` marks the nil-pointer dereference on a meld (or meld-result) card
with nil `ImageURIs` and the out-of-range index on a "transform" card with a
single face. -/
def processCard (client : Client) (opts : Options) (counts : List (String × Nat))
    (cardInfo : CardInfo) : StepRes :=
  let count := lookupCountD counts cardInfo.name
  match client.getCardByName cardInfo.name cardInfo.cset with
  | .error e => .abort e
  | .ok card =>
    match (if opts.showRulings then client.getRulings card.id else Except.ok []) with
    | .error e => .abort e
    | .ok rulings =>
      if card.layout = "meld" then
        if card.allParts.length = 0 then .skip
        else
          let meldResultURI :=
            ((card.allParts.find? (fun part => part.component = "meld_result")).map
              (fun part => part.uri)).getD ""
          if meldResultURI.length = 0 then .skip
          else
            let uriParts := splitSlash meldResultURI.toList
            let meldResultID := String.mk (uriParts.getLast?.getD [])
            match client.getCard meldResultID with
            | .error _ => .skip
            | .ok meldResult =>
              match card.imageURIs, meldResult.imageURIs with
              | some cardURIs, some meldURIs =>
                .add (PCard.mk card.name (buildCardDescription card rulings)
                  (getImageURL cardURIs card.highresImage opts.quality) count false
                  (some (PCard.mk meldResult.name (buildCardDescription meldResult rulings)
                    (getImageURL meldURIs meldResult.highresImage opts.quality) 0 true none)))
              | _, _ => .crash
      else if card.cardFaces.length = 0 || card.layout = "flip" || card.layout = "split"
          || card.layout = "adventure" then
        match card.imageURIs with
        | none => .abort ("no image found for card " ++ card.name)
        | some uris =>
          let description :=
            if 1 < card.cardFaces.length then
              buildCardFacesDescription card.cardFaces rulings
            else buildCardDescription card rulings
          .add (PCard.mk card.name description
            (getImageURL uris card.highresImage opts.quality) count card.oversized none)
      else
        match card.cardFaces with
        | front :: back :: _ =>
          .add (PCard.mk front.name (buildCardFaceDescription front rulings)
            (getImageURL front.imageURIs card.highresImage opts.quality) count false
            (some (PCard.mk back.name (buildCardFaceDescription back rulings)
              (getImageURL back.imageURIs card.highresImage opts.quality) 0 false none)))
        | _ => .crash

/-- The loop of `cardNamesToDeck` over the zone's names, accumulating
`deck.Cards`. The pair returned mirrors Go's `(deck, err)` multiple return:
on abort the cards accumulated so far are returned together with the error;
`none` is a panic. -/
def resolveLoop (client : Client) (opts : Options) (counts : List (String × Nat)) :
    List CardInfo → List PCard → Option (List PCard × Option String)
  | [], acc => some (acc, none)
  | cardInfo :: rest, acc =>
    match processCard client opts counts cardInfo with
    | .add pc => resolveLoop client opts counts rest (acc ++ [pc])
    | .skip => resolveLoop client opts counts rest acc
    | .abort e => some (acc, some e)
    | .crash => none

/-- `cardNamesToDeck`. The Go parameter `cards *CardNames` may be nil: the
loop header `range cards.Names` then dereferences a nil pointer, modelled as
`none`. -/
def cardNamesToDeck (client : Client) (cards : Option CardNames) (name : String)
    (opts : Options) : Option (Deck × Option String) :=
  match cards with
  | none => none
  | some c =>
    (resolveLoop client opts c.counts c.names []).map
      (fun p => (⟨name, defaultBackURL, p.1⟩, p.2))

/-! ## `fromDeckFile` -/

/-- The maybeboard stage of `fromDeckFile`. When the maybeboard collection is
present the source passes `side` — not `maybe` — to `cardNamesToDeck`
(parser.go line 367). -/
def maybeStage (client : Client) (side maybe : Option CardNames) (name : String)
    (opts : Options) (decks : List Deck) : Option (Except String (List Deck)) :=
  match maybe with
  | none => some (Except.ok decks)
  | some _ =>
    match cardNamesToDeck client side (name ++ " - Maybeboard") opts with
    | none => none
    | some (_, some e) => some (Except.error e)
    | some (d, none) => some (Except.ok (decks ++ [d]))

/-- The sideboard stage of `fromDeckFile`. -/
def sideStage (client : Client) (side maybe : Option CardNames) (name : String)
    (opts : Options) (decks : List Deck) : Option (Except String (List Deck)) :=
  match side with
  | none => maybeStage client side maybe name opts decks
  | some s =>
    match cardNamesToDeck client (some s) (name ++ " - Sideboard") opts with
    | none => none
    | some (_, some e) => some (Except.error e)
    | some (d, none) => maybeStage client side maybe name opts (decks ++ [d])

/-- `fromDeckFile`: parse, then resolve main, sideboard and maybeboard in
order, aborting (returning the error with no decks, Go `return nil, err`) as
soon as a zone resolution reports an error. Option validation is assumed to
have succeeded (`Options` is already validated). `none` is a panic. -/
def fromDeckFile (client : Client) (input : String) (name : String) (opts : Options) :
    Option (Except String (List Deck)) :=
  match parseDeckFile input with
  | none => none
  | some (main, side, maybe) =>
    match main with
    | none => sideStage client side maybe name opts []
    | some m =>
      match cardNamesToDeck client (some m) name opts with
      | none => none
      | some (_, some e) => some (Except.error e)
      | some (d, none) => sideStage client side maybe name opts [d]

/-! ## Auxiliary definitions used by the statements below -/

/-- An iteration outcome that lets the loop proceed to the next card
(an appended card or a skip), as opposed to aborting or panicking. -/
def cleanStep : StepRes → Bool
  | .add _ => true
  | .skip => true
  | .abort _ => false
  | .crash => false

/-- The cards contributed by a list of references whose iterations all
proceed (the accumulated `deck.Cards` for a clean prefix of the zone). -/
def addsOf (client : Client) (opts : Options) (counts : List (String × Nat))
    (l : List CardInfo) : List PCard :=
  l.filterMap
    (fun cardInfo =>
      match processCard client opts counts cardInfo with
      | .add pc => some pc
      | _ => none)

/-- The line either matches no grammar or its count capture parses to a
positive number. -/
def linePositive (line : String) : Bool :=
  match firstMatch line.toList with
  | some caps => 1 ≤ parseCount caps.count
  | none => true

/-- Every stored count of a collection is at least 1. -/
def cnPos (cn : CardNames) : Bool :=
  cn.counts.all (fun p => 1 ≤ p.2)

/-- Every stored count of an optional zone collection is at least 1. -/
def countsPos : Option CardNames → Bool
  | none => true
  | some cn => cnPos cn

/-- All three zone collections of a parse state have positive counts. -/
def stPos (st : PState) : Bool :=
  countsPos st.main && countsPos st.side && countsPos st.maybe

/-- Propositional version of `cnPos`. -/
def PosCN (cn : CardNames) : Prop :=
  ∀ p ∈ cn.counts, 1 ≤ p.2

/-- Propositional version of `countsPos`. -/
def PosZ (z : Option CardNames) : Prop :=
  ∀ cn, z = some cn → PosCN cn

/-- Propositional version of `stPos`. -/
def PosSt (st : PState) : Prop :=
  PosZ st.main ∧ PosZ st.side ∧ PosZ st.maybe

/-! ## Concrete lookup clients for the resolver claims -/

/-- A distinct image URI set per card name. -/
def imgFor (n : String) : ImageURIs :=
  ⟨"s-" ++ n, "n-" ++ n, "l-" ++ n, "p-" ++ n⟩

/-- A plain single-faced card with the given name. -/
def normalSCard (n : String) : SCard :=
  ⟨"id-" ++ n, n, "normal", some (imgFor n), true, false, [], [], "t-" ++ n⟩

/-- A client on which every lookup succeeds with a plain card. -/
def okClient : Client :=
  ⟨fun n _ => Except.ok (normalSCard n),
   fun i => Except.ok (normalSCard i),
   fun _ => Except.ok []⟩

/-- A client on which the primary lookup of `"Badcard"` fails and every other
lookup succeeds. -/
def failClient : Client :=
  ⟨fun n _ => if n = "Badcard" then Except.error "nf" else Except.ok (normalSCard n),
   fun i => Except.ok (normalSCard i),
   fun _ => Except.ok []⟩

/-- A meld-layout card whose metadata has no linked parts at all. -/
def meldNoParts : SCard :=
  ⟨"id-MeldA", "MeldA", "meld", some (imgFor "MeldA"), true, false, [], [], "t-MeldA"⟩

/-- A meld-layout card with a meld-result link whose secondary lookup will
fail. -/
def meldBadLink : SCard :=
  ⟨"id-MeldB", "MeldB", "meld", some (imgFor "MeldB"), true, false,
    [⟨"combo_piece", "https://api/cards/zzz"⟩, ⟨"meld_result", "https://api/cards/abc"⟩],
    [], "t-MeldB"⟩

/-- A client serving the two unresolvable meld cards and plain cards
otherwise, with every by-ID lookup (meld results) failing. -/
def meldClient : Client :=
  ⟨fun n _ =>
    Except.ok
      (if n = "MeldA" then meldNoParts else if n = "MeldB" then meldBadLink
       else normalSCard n),
   fun _ => Except.error "meld lookup down",
   fun _ => Except.ok []⟩

/-- A zone holding the two unresolvable meld cards followed by a normal
card. -/
def meldZone : CardNames :=
  ⟨[⟨"MeldA", none⟩, ⟨"MeldB", none⟩, ⟨"Norm", none⟩],
    [("MeldA", 1), ("MeldB", 1), ("Norm", 2)]⟩

/-- Default options: `normal` quality, no rulings. -/
def opts0 : Options := ⟨Quality.normal, false⟩

/-- The parse of `"1 Forest\n1 Badcard"` (used to witness the abort-on-lookup
failure claim). -/
def cnBad : CardNames :=
  ⟨[⟨"Forest", none⟩, ⟨"Badcard", none⟩], [("Forest", 1), ("Badcard", 1)]⟩

/-! ## Claim theorems -/

/-- Claim C1: parsing `"4 Forest\n\n4 Island\n\nSB: 2 Negate"` yields
main = {Forest: 4, Island: 4} in insertion order (Forest first), sideboard =
{Negate: 2} and no maybeboard: the blank line provisionally opens a sideboard
holding Island, and the first `SB:`-prefixed line merges that provisional
sideboard back into main before Negate is filed under the real sideboard. -/
theorem c1_boundary_retraction :
    parseDeckFile "4 Forest\n\n4 Island\n\nSB: 2 Negate" =
      some (some ⟨[⟨"Forest", none⟩, ⟨"Island", none⟩], [("Forest", 4), ("Island", 4)]⟩,
        some ⟨[⟨"Negate", none⟩], [("Negate", 2)]⟩, none) := by
  rfl

/-- Claim C2 (refuted, code bug): on `"4 Forest\n\n2 Forest\n\nSB: 1 Negate"`
the `SB:`-triggered merge appends the whole provisional sideboard `Names`
sequence to main, including the name `"Forest"` that main already holds, so
the merged main sequence lists `"Forest"` twice (while the count map sums to
6) — violating the at-most-once invariant the claim states for the merge. -/
theorem c2_merge_duplicates_name_entry :
    parseDeckFile "4 Forest\n\n2 Forest\n\nSB: 1 Negate" =
      some (some ⟨[⟨"Forest", none⟩, ⟨"Forest", none⟩], [("Forest", 6)]⟩,
        some ⟨[⟨"Negate", none⟩], [("Negate", 1)]⟩, none) ∧
    ¬ (([(⟨"Forest", none⟩ : CardInfo), ⟨"Forest", none⟩].map
      (fun i => i.name)).Nodup) := by
  exact ⟨rfl, by decide⟩

/-- Claim C3: when the parse yields both a sideboard and a maybeboard, the
deck named with the `" - Maybeboard"` suffix that `fromDeckFile` produces is
resolved from the sideboard's collection (`Negate`), not from the
maybeboard's (`Opt`) — the last conjunct shows what resolving the maybeboard
collection itself would have produced instead. -/
theorem c3_maybeboard_resolved_from_sideboard :
    parseDeckFile "1 Forest\nSB: 1 Negate\nMaybeboard\n1 Opt" =
      some (some ⟨[⟨"Forest", none⟩], [("Forest", 1)]⟩,
        some ⟨[⟨"Negate", none⟩], [("Negate", 1)]⟩,
        some ⟨[⟨"Opt", none⟩], [("Opt", 1)]⟩) ∧
    fromDeckFile okClient "1 Forest\nSB: 1 Negate\nMaybeboard\n1 Opt" "D" opts0 =
      some (Except.ok
        [⟨"D", defaultBackURL, [PCard.mk "Forest" "t-Forest" "n-Forest" 1 false none]⟩,
         ⟨"D - Sideboard", defaultBackURL,
           [PCard.mk "Negate" "t-Negate" "n-Negate" 1 false none]⟩,
         ⟨"D - Maybeboard", defaultBackURL,
           [PCard.mk "Negate" "t-Negate" "n-Negate" 1 false none]⟩]) ∧
    cardNamesToDeck okClient (some ⟨[⟨"Opt", none⟩], [("Opt", 1)]⟩)
        "D - Maybeboard" opts0 =
      some (⟨"D - Maybeboard", defaultBackURL,
        [PCard.mk "Opt" "t-Opt" "n-Opt" 1 false none]⟩, none) := by
  exact ⟨rfl, rfl, rfl⟩

/-- Claim C4: parsing `"4 Forest\n\n4 Island\n\n\n"` — no `SB:` line and more
than one blank-line transition — merges the provisional sideboard back into
main at end of input: a single main zone {Forest: 4, Island: 4}, no
sideboard. -/
theorem c4_multi_blank_false_boundary :
    parseDeckFile "4 Forest\n\n4 Island\n\n\n" =
      some (some ⟨[⟨"Forest", none⟩, ⟨"Island", none⟩], [("Forest", 4), ("Island", 4)]⟩,
        none, none) := by
  rfl

/-- Claim C7: the line `"SB: 2 [ABC] Counterspell"` is rejected by the
Arena grammar, matched by the Workstation grammar (second in priority)
extracting count 2, set `ABC`, name `Counterspell` and a present sideboard
prefix — so `firstMatch` returns that match, not the generic grammar's match,
which would have kept `"[ABC]"` as part of the name. -/
theorem c7_grammar_priority :
    matchRE arenaRegex "SB: 2 [ABC] Counterspell".toList = none ∧
    matchRE workstationRegex "SB: 2 [ABC] Counterspell".toList =
      some ⟨"2", "Counterspell", "ABC", "SB:", "", ""⟩ ∧
    firstMatch "SB: 2 [ABC] Counterspell".toList =
      some ⟨"2", "Counterspell", "ABC", "SB:", "", ""⟩ ∧
    matchRE standardRegex "SB: 2 [ABC] Counterspell".toList =
      some ⟨"2", "[ABC] Counterspell", "", "SB:", "", ""⟩ := by
  exact ⟨rfl, rfl, rfl, rfl⟩

/-- Claim C8: a zone holding a meld card with no linked parts, a meld card
whose meld-result lookup fails, and then a normal card resolves — without
aborting — to the deck containing only the normal card. -/
theorem c8_meld_skip_not_abort :
    cardNamesToDeck meldClient (some meldZone) "Z" opts0 =
      some (⟨"Z", defaultBackURL, [PCard.mk "Norm" "t-Norm" "n-Norm" 2 false none]⟩,
        none) := by
  rfl

/-- Claim C9: `small`/`normal` always return the corresponding URL;
`large`/`png` return the large/png URL when the high-resolution flag is set
and downgrade to the `normal` URL (without error) when it is not. -/
theorem c9_image_quality_selection (uris : ImageURIs) (hr : Bool) :
    getImageURL uris hr Quality.small = uris.small ∧
    getImageURL uris hr Quality.normal = uris.normal ∧
    getImageURL uris true Quality.large = uris.large ∧
    getImageURL uris false Quality.large = uris.normal ∧
    getImageURL uris true Quality.png = uris.png ∧
    getImageURL uris false Quality.png = uris.normal := by
  refine ⟨?_, ?_, rfl, rfl, rfl, rfl⟩ <;> cases hr <;> rfl

/-- Witness for the image-quality claim at a concrete URI set. -/
theorem c9_image_quality_selection_witness :
    getImageURL (imgFor "X") false Quality.small = (imgFor "X").small ∧
    getImageURL (imgFor "X") false Quality.normal = (imgFor "X").normal ∧
    getImageURL (imgFor "X") true Quality.large = (imgFor "X").large ∧
    getImageURL (imgFor "X") false Quality.large = (imgFor "X").normal ∧
    getImageURL (imgFor "X") true Quality.png = (imgFor "X").png ∧
    getImageURL (imgFor "X") false Quality.png = (imgFor "X").normal :=
  c9_image_quality_selection (imgFor "X") false

/-- Claim C10: `"1 Forest\nMaybeboard\n1 Negate"` parses to a populated
maybeboard with an absent sideboard; `fromDeckFile` then hands the nil
sideboard pointer to `cardNamesToDeck`, which dereferences it — the
resolution panics (`none` models the nil-pointer dereference) instead of
returning an error value. -/
theorem c10_nil_sideboard_dereference :
    parseDeckFile "1 Forest\nMaybeboard\n1 Negate" =
      some (some ⟨[⟨"Forest", none⟩], [("Forest", 1)]⟩, none,
        some ⟨[⟨"Negate", none⟩], [("Negate", 1)]⟩) ∧
    cardNamesToDeck okClient none "D - Maybeboard" opts0 = none ∧
    fromDeckFile okClient "1 Forest\nMaybeboard\n1 Negate" "D" opts0 = none := by
  exact ⟨rfl, rfl, rfl⟩

/-! ## Lemmas for the abort-on-lookup-failure claim -/

/-- Iterations that append or skip just accumulate their contributions: the
loop on `pre ++ l` equals the loop on `l` started from the accumulated
cards of `pre`, provided every iteration over `pre` proceeds. -/
theorem resolveLoop_clean_prefix (client : Client) (opts : Options)
    (counts : List (String × Nat)) :
    ∀ (pre l : List CardInfo) (acc : List PCard),
      (∀ c ∈ pre, cleanStep (processCard client opts counts c) = true) →
      resolveLoop client opts counts (pre ++ l) acc =
        resolveLoop client opts counts l (acc ++ addsOf client opts counts pre) := by
  intro pre
  induction pre with
  | nil =>
    intro l acc _
    simp [addsOf]
  | cons c pre ih =>
    intro l acc h
    have hc := h c (by simp)
    have hrest : ∀ c2 ∈ pre, cleanStep (processCard client opts counts c2) = true :=
      fun c2 hm => h c2 (by simp [hm])
    cases hp : processCard client opts counts c with
    | add pc =>
      simp only [List.cons_append, resolveLoop, hp, List.append_eq]
      rw [ih l (acc ++ [pc]) hrest]
      simp [addsOf, List.filterMap_cons, hp]
    | skip =>
      simp only [List.cons_append, resolveLoop, hp, List.append_eq]
      rw [ih l acc hrest]
      simp [addsOf, List.filterMap_cons, hp]
    | abort e =>
      rw [hp] at hc
      simp [cleanStep] at hc
    | crash =>
      rw [hp] at hc
      simp [cleanStep] at hc

/-- An iteration whose primary lookup fails aborts the batch with that
error. -/
theorem processCard_lookup_error (client : Client) (opts : Options)
    (counts : List (String × Nat)) (c : CardInfo) (e : String)
    (h : client.getCardByName c.name c.cset = Except.error e) :
    processCard client opts counts c = StepRes.abort e := by
  simp only [processCard, h]

/-- Claim C5: for every lookup behaviour and every zone collection, when the
primary lookup fails for a card of the zone (every earlier iteration having
proceeded), the whole zone resolution aborts with that error — the remaining
cards are not processed — and the caller of `fromDeckFile` receives only that
error, no partial deck list. -/
theorem c5_lookup_failure_aborts_zone
    (client : Client) (opts : Options) (input fname : String)
    (m : CardNames) (sideZ maybeZ : Option CardNames)
    (pre rest : List CardInfo) (c : CardInfo) (e : String)
    (hparse : parseDeckFile input = some (some m, sideZ, maybeZ))
    (hnames : m.names = pre ++ c :: rest)
    (hpre : ∀ c2 ∈ pre, cleanStep (processCard client opts m.counts c2) = true)
    (hfail : client.getCardByName c.name c.cset = Except.error e) :
    cardNamesToDeck client (some m) fname opts =
      some (⟨fname, defaultBackURL, addsOf client opts m.counts pre⟩, some e) ∧
    fromDeckFile client input fname opts = some (Except.error e) := by
  have h1 : resolveLoop client opts m.counts m.names [] =
      some (addsOf client opts m.counts pre, some e) := by
    rw [hnames, resolveLoop_clean_prefix client opts m.counts pre (c :: rest) [] hpre]
    simp only [List.nil_append, resolveLoop,
      processCard_lookup_error client opts m.counts c e hfail]
  have h2 : cardNamesToDeck client (some m) fname opts =
      some (⟨fname, defaultBackURL, addsOf client opts m.counts pre⟩, some e) := by
    simp [cardNamesToDeck, h1]
  refine ⟨h2, ?_⟩
  simp [fromDeckFile, hparse, h2]

/-- Witness for the abort-on-lookup-failure claim at a concrete input and
client: `"Badcard"`'s lookup fails on `failClient`, so resolving the parsed
main zone of `"1 Forest\n1 Badcard"` aborts with `"nf"` and `fromDeckFile`
returns only that error. -/
theorem c5_lookup_failure_aborts_zone_witness :
    cardNamesToDeck failClient (some cnBad) "D" opts0 =
      some (⟨"D", defaultBackURL, addsOf failClient opts0 cnBad.counts [⟨"Forest", none⟩]⟩,
        some "nf") ∧
    fromDeckFile failClient "1 Forest\n1 Badcard" "D" opts0 =
      some (Except.error "nf") :=
  c5_lookup_failure_aborts_zone failClient opts0 "1 Forest\n1 Badcard" "D" cnBad
    none none [⟨"Forest", none⟩] [] ⟨"Badcard", none⟩ "nf"
    (by decide) rfl (by decide) rfl

/-! ## Lemmas for the positive-count claim -/

/-- Members of `setCount l n v` are the written pair or old members. -/
theorem setCount_mem : ∀ (l : List (String × Nat)) (n : String) (v : Nat)
    (q : String × Nat), q ∈ setCount l n v → q = (n, v) ∨ q ∈ l := by
  intro l
  induction l with
  | nil =>
    intro n v q hq
    simp [setCount] at hq
    exact Or.inl (by simp [hq])
  | cons p rest ih =>
    intro n v q hq
    obtain ⟨k, w⟩ := p
    simp only [setCount] at hq
    by_cases hk : k = n
    · rw [if_pos hk] at hq
      rcases List.mem_cons.mp hq with h | h
      · subst hk
        exact Or.inl h
      · exact Or.inr (List.mem_cons_of_mem _ h)
    · rw [if_neg hk] at hq
      rcases List.mem_cons.mp hq with h | h
      · exact Or.inr (by simp [h])
      · rcases ih n v q h with h2 | h2
        · exact Or.inl h2
        · exact Or.inr (List.mem_cons_of_mem _ h2)

/-- `bumpCount` keeps every count positive when the added count is. -/
theorem bumpCount_pos (acc : List (String × Nat)) (p : String × Nat)
    (hacc : ∀ q ∈ acc, 1 ≤ q.2) (hp : 1 ≤ p.2) :
    ∀ q ∈ bumpCount acc p, 1 ≤ q.2 := by
  intro q hq
  unfold bumpCount at hq
  cases hl : lookupCount acc p.1 with
  | some originalCount =>
    rw [hl] at hq
    rcases setCount_mem _ _ _ _ hq with h | h
    · subst h
      show 1 ≤ originalCount + p.2
      omega
    · exact hacc q h
  | none =>
    rw [hl] at hq
    rcases setCount_mem _ _ _ _ hq with h | h
    · subst h
      exact hp
    · exact hacc q h

/-- The count-merging fold keeps every count positive. -/
theorem foldl_bumpCount_pos : ∀ (sl acc : List (String × Nat)),
    (∀ q ∈ acc, 1 ≤ q.2) → (∀ q ∈ sl, 1 ≤ q.2) →
    ∀ q ∈ sl.foldl bumpCount acc, 1 ≤ q.2 := by
  intro sl
  induction sl with
  | nil =>
    intro acc hacc _ q hq
    exact hacc q hq
  | cons p rest ih =>
    intro acc hacc hsl q hq
    simp only [List.foldl_cons] at hq
    exact ih (bumpCount acc p) (bumpCount_pos acc p hacc (hsl p (by simp)))
      (fun q2 hm => hsl q2 (by simp [hm])) q hq

/-- The reconciliation merge keeps every count positive. -/
theorem mergeCardNames_pos (m s : CardNames) (hm : PosCN m) (hs : PosCN s) :
    PosCN (mergeCardNames m s) := by
  intro q hq
  simp only [mergeCardNames] at hq
  exact foldl_bumpCount_pos s.counts m.counts hm hs q hq

/-- `InsertCount` with a positive count keeps every count positive. -/
theorem InsertCount_pos (cn : CardNames) (n : String) (s : Option String) (k : Nat)
    (hcn : PosCN cn) (hk : 1 ≤ k) : PosCN (cn.InsertCount n s k) := by
  intro q hq
  unfold CardNames.InsertCount at hq
  cases hl : lookupCount cn.counts n with
  | none =>
    rw [hl] at hq
    simp only at hq
    rcases List.mem_append.mp hq with h | h
    · exact hcn q h
    · simp at h
      rw [h]
      exact hk
  | some old =>
    rw [hl] at hq
    simp only at hq
    rcases setCount_mem _ _ _ _ hq with h | h
    · subst h
      show 1 ≤ old + k
      omega
    · exact hcn q h

/-- An optional collection with positive counts, defaulting to the empty
one. -/
theorem getD_pos (z : Option CardNames) (hz : PosZ z) : PosCN (z.getD NewCardNames) := by
  cases z with
  | none =>
    intro q hq
    simp [NewCardNames] at hq
  | some cn =>
    exact hz cn rfl

/-- A freshly wrapped collection is a positive zone. -/
theorem PosZ_some (cn : CardNames) (h : PosCN cn) : PosZ (some cn) := by
  intro cn2 h2
  injection h2 with h2
  exact h2 ▸ h

/-- The zone `none` is trivially positive. -/
theorem PosZ_none : PosZ none := by
  intro cn h
  exact Option.noConfusion h

/-- `insertMatched` with a positive parsed count preserves positivity of all
three zones. -/
theorem insertMatched_pos (caps : Caps) (st : PState)
    (hcount : 1 ≤ parseCount caps.count) (hst : PosSt st) :
    PosSt (insertMatched caps st) := by
  obtain ⟨hm, hs, hy⟩ := hst
  obtain ⟨main, side, maybe, step, sb, ec⟩ := st
  cases step with
  | Main =>
    exact ⟨PosZ_some _ (InsertCount_pos _ _ _ _ (getD_pos main hm) hcount), hs, hy⟩
  | Sideboard =>
    exact ⟨hm, PosZ_some _ (InsertCount_pos _ _ _ _ (getD_pos side hs) hcount), hy⟩
  | Maybeboard =>
    exact ⟨hm, hs, PosZ_some _ (InsertCount_pos _ _ _ _ (getD_pos maybe hy) hcount)⟩

/-- `parseDeckLine` preserves positivity of all three zones when the line's
parsed count (when the line matches a card grammar) is positive. -/
theorem parseDeckLine_pos (line : String) (st st2 : PState)
    (hp : parseDeckLine line st = some st2) (hl : linePositive line = true)
    (hst : PosSt st) : PosSt st2 := by
  obtain ⟨hm, hs, hy⟩ := hst
  obtain ⟨main, side, maybe, step, sb, ec⟩ := st
  unfold parseDeckLine at hp
  cases hfm : firstMatch line.toList with
  | none =>
    rw [hfm] at hp
    simp only at hp
    injection hp with h
    exact h ▸ ⟨hm, hs, hy⟩
  | some caps =>
    rw [hfm] at hp
    simp only at hp
    have hcount : 1 ≤ parseCount caps.count := by
      unfold linePositive at hl
      rw [hfm] at hl
      exact of_decide_eq_true hl
    by_cases hsb : (decide (0 < caps.sideboard.length) && !sb) = true
    · rw [if_pos hsb] at hp
      cases hside : side with
      | some s =>
        rw [hside] at hp
        simp only at hp
        by_cases hlen : (0 < s.names.length)
        · rw [if_pos hlen] at hp
          cases hmain : main with
          | none =>
            rw [hmain] at hp
            simp only at hp
            exact Option.noConfusion hp
          | some m =>
            rw [hmain] at hp
            simp only at hp
            injection hp with h
            refine h ▸ insertMatched_pos _ _ hcount ?_
            exact ⟨PosZ_some _ (mergeCardNames_pos m s (hm m hmain) (hs s hside)),
              PosZ_none, hy⟩
        · rw [if_neg hlen] at hp
          injection hp with h
          refine h ▸ insertMatched_pos _ _ hcount ?_
          exact ⟨hm, hside ▸ hs, hy⟩
      | none =>
        rw [hside] at hp
        simp only at hp
        injection hp with h
        refine h ▸ insertMatched_pos _ _ hcount ?_
        exact ⟨hm, hside ▸ hs, hy⟩
    · rw [if_neg hsb] at hp
      injection hp with h
      exact h ▸ insertMatched_pos _ _ hcount ⟨hm, hs, hy⟩

/-- The line loop preserves positivity of all three zones when every line's
parsed count is positive. -/
theorem parseLines_pos : ∀ (lines : List String) (st st2 : PState),
    parseLines lines st = some st2 → (∀ l ∈ lines, linePositive l = true) →
    PosSt st → PosSt st2 := by
  intro lines
  induction lines with
  | nil =>
    intro st st2 hp _ hst
    injection hp with h
    exact h ▸ hst
  | cons line rest ih =>
    intro st st2 hp hl hst
    have hrest : ∀ l ∈ rest, linePositive l = true :=
      fun l hm => hl l (by simp [hm])
    obtain ⟨hm, hs, hy⟩ := hst
    obtain ⟨main, side, maybe, step, sb, ec⟩ := st
    simp only [parseLines] at hp
    by_cases h0 : line.length = 0
    · rw [if_pos h0] at hp
      cases hmain : main with
      | some m =>
        rw [hmain] at hp
        simp only at hp
        by_cases hlen : (0 < m.names.length)
        · rw [if_pos hlen] at hp
          exact ih _ st2 hp hrest ⟨hmain ▸ hm, hs, hy⟩
        · rw [if_neg hlen] at hp
          exact ih _ st2 hp hrest ⟨hmain ▸ hm, hs, hy⟩
      | none =>
        rw [hmain] at hp
        simp only at hp
        exact ih _ st2 hp hrest ⟨hmain ▸ hm, hs, hy⟩
    · rw [if_neg h0] at hp
      by_cases hpre1 : hasPrefix line "Sideboard" = true
      · rw [if_pos hpre1] at hp
        exact ih _ st2 hp hrest ⟨hm, hs, hy⟩
      · rw [if_neg hpre1] at hp
        by_cases hpre2 : hasPrefix line "Maybeboard" = true
        · rw [if_pos hpre2] at hp
          exact ih _ st2 hp hrest ⟨hm, hs, hy⟩
        · rw [if_neg hpre2] at hp
          by_cases hpre3 : hasPrefix line "//" = true
          · rw [if_pos hpre3] at hp
            exact ih _ st2 hp hrest ⟨hm, hs, hy⟩
          · rw [if_neg hpre3] at hp
            cases hpd : parseDeckLine line ⟨main, side, maybe, step, sb, ec⟩ with
            | none =>
              rw [hpd] at hp
              exact Option.noConfusion hp
            | some stx =>
              rw [hpd] at hp
              exact ih _ st2 hp hrest
                (parseDeckLine_pos line _ stx hpd (hl line (by simp)) ⟨hm, hs, hy⟩)

/-- Bridge from the propositional invariant to the executable check. -/
theorem countsPos_of_PosZ (z : Option CardNames) (hz : PosZ z) : countsPos z = true := by
  cases z with
  | none => rfl
  | some cn =>
    simp only [countsPos, cnPos, List.all_eq_true]
    intro p hp
    exact decide_eq_true (hz cn rfl p hp)

/-- Claim C6 is false as stated: the count grammar `\d+` accepts `0`, so the
line `"0 Forest"` inserts Forest with cumulative count 0 into the returned
main zone — a name whose associated count is not at least 1. -/
theorem c6_zero_count_counterexample :
    parseDeckFile "0 Forest" =
      some (some ⟨[⟨"Forest", none⟩], [("Forest", 0)]⟩, none, none) ∧
    countsPos (some ⟨[⟨"Forest", none⟩], [("Forest", 0)]⟩) = false := by
  exact ⟨rfl, rfl⟩

/-- Claim C6 as amended: provided every line that matches a grammar carries a
positive parsed count, every card name present in any zone collection
returned by `parseDeckFile` has an associated cumulative count of at least
1. -/
theorem c6_counts_positive (input : String) (mo so yo : Option CardNames)
    (hl : ∀ l ∈ splitLines input, linePositive l = true)
    (hp : parseDeckFile input = some (mo, so, yo)) :
    countsPos mo = true ∧ countsPos so = true ∧ countsPos yo = true := by
  unfold parseDeckFile at hp
  cases hpl : parseLines (splitLines input) ⟨none, none, none, DeckType.Main, false, 0⟩ with
  | none =>
    rw [hpl] at hp
    exact Option.noConfusion hp
  | some st =>
    rw [hpl] at hp
    simp only at hp
    have hst : PosSt st :=
      parseLines_pos _ _ _ hpl hl ⟨PosZ_none, PosZ_none, PosZ_none⟩
    obtain ⟨hm, hs, hy⟩ := hst
    cases hside : st.side with
    | none =>
      rw [hside] at hp
      simp only [Option.some.injEq, Prod.mk.injEq] at hp
      obtain ⟨h1, h2, h3⟩ := hp
      subst h1
      subst h2
      subst h3
      exact ⟨countsPos_of_PosZ _ hm, countsPos_of_PosZ _ (hside ▸ hs),
        countsPos_of_PosZ _ hy⟩
    | some s =>
      rw [hside] at hp
      simp only at hp
      by_cases hcond : (!st.sbLineFound && decide (1 < st.emptyLineCount)) = true
      · rw [if_pos hcond] at hp
        cases hmain : st.main with
        | none =>
          rw [hmain] at hp
          exact Option.noConfusion hp
        | some m =>
          rw [hmain] at hp
          simp only [Option.some.injEq, Prod.mk.injEq] at hp
          obtain ⟨h1, h2, h3⟩ := hp
          subst h1
          subst h2
          subst h3
          exact ⟨countsPos_of_PosZ _
              (PosZ_some _ (mergeCardNames_pos m s (hm m hmain) (hs s hside))),
            rfl, countsPos_of_PosZ _ hy⟩
      · rw [if_neg hcond] at hp
        simp only [Option.some.injEq, Prod.mk.injEq] at hp
        obtain ⟨h1, h2, h3⟩ := hp
        subst h1
        subst h2
        subst h3
        exact ⟨countsPos_of_PosZ _ hm, countsPos_of_PosZ _ (hside ▸ hs),
          countsPos_of_PosZ _ hy⟩

/-- Witness for the amended positive-count claim at a concrete input: every
line of `"2 Forest\n1 Island"` carries a positive count and both parsed
zones check positive. -/
theorem c6_counts_positive_witness :
    countsPos (some ⟨[⟨"Forest", none⟩, ⟨"Island", none⟩],
      [("Forest", 2), ("Island", 1)]⟩) = true ∧
    countsPos none = true ∧ countsPos none = true :=
  c6_counts_positive "2 Forest\n1 Island"
    (some ⟨[⟨"Forest", none⟩, ⟨"Island", none⟩], [("Forest", 2), ("Island", 1)]⟩)
    none none (by decide) rfl

end MtgParser
